import Mathlib

/-!
Verification of `lib/sqlalchemy/orm/path_registry.py`.

The module is a hierarchical path registry over mapper-graph traversals.  We
give a shallow embedding of its data model and operations:

* `Entity` models an inspection result for a path entity element: a `Mapper`
  or an `AliasedInsp`.  Object identity of the Python descriptors is modelled
  by the `id` field (each distinct descriptor gets a distinct `id`), and the
  attributes that `PropRegistry.__init__`, `serialize` and `contains_mapper`
  consult are carried as fields (`class_`, `is_mapper`, `is_aliased_class`,
  `use_mapper_path` for `_use_mapper_path`, `mapperId` for the identity of
  `insp.mapper`, `with_polymorphic_mappers` as the identities of the presented
  sub-mappers, and `isa_ids` as the identities of the mappers `m` for which
  `self.isa(m)` holds).
* `Prop_` models a `MapperProperty`: its `key` (name) and its declaring
  mapper `parent`.
* `Metadata` models the external mapping-metadata capabilities consumed by
  the module: `class_mapper` (class identifier to mapper), `attrs` (mapper
  identity and key to property, i.e. `mapper.attrs[key]`), and
  `entity_for_mapper` (the `AliasedInsp._entity_for_mapper` lookup, keyed by
  the identity of the aliased entity and of the mapper).
* `Elem` is a path element: an entity, a property, a token, or the Python
  `None` placeholder that `deserialize` inserts for a missing key.
* `Node` mirrors the four registry classes: `RootRegistry`, `EntityRegistry`,
  `PropRegistry`, `TokenRegistry`; `Node.path` is the `path` tuple.

Python exceptions are modelled with `Except Err`; attribute access on objects
that lack the attribute (for example `"token".class_`) is `Err.attributeError`,
and `TokenRegistry.__getitem__`, which raises `NotImplementedError` (the
realisation of the `InvalidIndexError` of the specification), is
`Err.notImplemented`.
-/

namespace PathReg

/-- Python-level errors surfaced by the modelled operations. -/
inductive Err where
  | attributeError
  | notImplemented
  | keyError
  | unresolvable
  | entityForMapperError
deriving DecidableEq

/-- An inspection result for an entity path element (a `Mapper` or an
`AliasedInsp`).  `id` models object identity. -/
structure Entity where
  id : Nat
  class_ : Nat
  is_mapper : Bool
  is_aliased_class : Bool
  use_mapper_path : Bool
  mapperId : Nat
  with_polymorphic_mappers : List Nat
  isa_ids : List Nat
deriving DecidableEq

/-- A `MapperProperty`: its key and the mapper that declares it
(`prop.parent`). -/
structure Prop_ where
  key : String
  parent : Entity
deriving DecidableEq

/-- External mapping metadata consumed by the module. -/
structure Metadata where
  class_mapper : Nat → Option Entity
  attrs : Nat → String → Option Prop_
  entity_for_mapper : Nat → Nat → Option Entity

/-- A path element: entity, property, token, or the Python `None`
placeholder produced by `deserialize` for a pair with a null key. -/
inductive Elem where
  | ent (e : Entity)
  | prp (p : Prop_)
  | tok (t : String)
  | pynone
deriving DecidableEq

/-- A path-registry node: `RootRegistry`, `EntityRegistry(parent, entity)`,
`PropRegistry(parent, key)` (the key is kept as an element, as the code
stores whatever object was used to index), `TokenRegistry(parent, token)`. -/
inductive Node where
  | root
  | entity (parent : Node) (e : Entity)
  | prp (parent : Node) (k : Elem)
  | tok (parent : Node) (t : String)
deriving DecidableEq

/-- The `path` tuple of a node.  Structural equality of registries
(`PathRegistry.__eq__`) is equality of these sequences. -/
def Node.path : Node → List Elem
  | .root => []
  | .entity p e => p.path ++ [.ent e]
  | .prp p k => p.path ++ [k]
  | .tok p t => p.path ++ [.tok t]

/-- Access `x.parent` on a path-element value: only property descriptors
carry a declaring mapper; everything else raises `AttributeError`. -/
def Elem.attrParent : Elem → Except Err Entity
  | .prp p => .ok p.parent
  | _ => .error .attributeError

/-- Access `x.class_`: only entity descriptors carry a class. -/
def Elem.classAttr : Elem → Except Err Nat
  | .ent e => .ok e.class_
  | _ => .error .attributeError

/-- Access `x.key`: only property descriptors carry a key. -/
def Elem.keyAttr : Elem → Except Err String
  | .prp p => .ok p.key
  | _ => .error .attributeError

/-- Indexing a node with an entity, `node[entity]`:
`RootRegistry.__getitem__` returns the root-rooted `EntityRegistry` owned
by the entity; `PropRegistry.__getitem__` builds
`EntityRegistry(self, entity)`; `TokenRegistry.__getitem__` raises
`NotImplementedError`; `EntityRegistry.__getitem__` falls through to the
dict lookup, whose `__missing__` builds `PropRegistry(self, entity)` - that
constructor reads `prop.parent` (an `AttributeError` for a mapper) in its
first two branches and otherwise wraps the entity as a property element. -/
def getEnt : Node → Entity → Except Err Node
  | .root, x => .ok (.entity .root x)
  | .prp a b, x => .ok (.entity (.prp a b) x)
  | .tok _ _, _ => .error .notImplemented
  | .entity gp e, x =>
      if !e.is_aliased_class || e.use_mapper_path then .error .attributeError
      else if e.is_aliased_class && !e.with_polymorphic_mappers.isEmpty then
        .error .attributeError
      else .ok (.prp (.entity gp e) (.ent x))

/-- `PropRegistry.__init__(parent, prop)` where `parent` is
`EntityRegistry(gp, e)` (the only construction site is
`EntityRegistry.__missing__`): restates the path in terms of the declaring
parent of the given property.  `insp = inspect(parent[-1])` is `e` itself.
Branch 1: not an aliased class, or `_use_mapper_path`, rebases onto
`parent.parent[prop.parent]`.  Branch 2: an aliased class presenting
polymorphic mappers rebases onto the subtype view when the declaring mapper
is a presented strict subtype.  Branch 3: the parent is kept. -/
def mkProp (M : Metadata) (gp : Node) (e : Entity) (k : Elem) : Except Err Node :=
  if !e.is_aliased_class || e.use_mapper_path then
    match k.attrParent with
    | .error err => .error err
    | .ok pp =>
      match getEnt gp pp with
      | .error err => .error err
      | .ok par => .ok (.prp par k)
  else if e.is_aliased_class && !e.with_polymorphic_mappers.isEmpty then
    match k.attrParent with
    | .error err => .error err
    | .ok pp =>
      if pp.id ≠ e.mapperId ∧ pp.id ∈ e.with_polymorphic_mappers then
        match M.entity_for_mapper e.id pp.id with
        | none => .error .entityForMapperError
        | some sub =>
          match getEnt gp sub with
          | .error err => .error err
          | .ok par => .ok (.prp par k)
      else .ok (.prp (.entity gp e) k)
  else .ok (.prp (.entity gp e) k)

/-- `node[key]` for a general (non-integer) key, as used by `coerce`,
`__add__` and the construction helpers.  For an `EntityRegistry` this is the
cache-free semantics of the dict lookup: `__missing__` always builds
`PropRegistry(self, key)` (the memoised variant is `dictGetItem` below and
returns structurally identical nodes, see the memoization theorem). -/
def getItem (M : Metadata) (n : Node) (k : Elem) : Except Err Node :=
  match n, k with
  | .root, .ent e => .ok (.entity .root e)
  | .root, _ => .error .attributeError
  | .tok _ _, _ => .error .notImplemented
  | .prp a b, .ent e => .ok (.entity (.prp a b) e)
  | .prp _ _, _ => .error .attributeError
  | .entity gp e, k => mkProp M gp e k

/-- The per-`EntityRegistry` child cache (the dict the registry itself is). -/
abbrev Cache := List (Elem × Node)

/-- Dict lookup in the child cache.  Python compares the property-descriptor
keys by identity; descriptors are values here, so identity is structural
equality. -/
def cacheFind : Cache → Elem → Option Node
  | [], _ => none
  | (k', n) :: rest, k => if k' = k then some n else cacheFind rest k

/-- `EntityRegistry.__getitem__` for a non-integer key with the memoising
dict made explicit: a cached child is returned as is; otherwise
`__missing__` runs `PropRegistry(self, key)` to completion and only then
stores the item (`self[key] = item = PropRegistry(self, key)`), so a raising
constructor leaves the cache untouched. -/
def dictGetItem (M : Metadata) (gp : Node) (e : Entity) (c : Cache) (k : Elem) :
    Except Err Node × Cache :=
  match cacheFind c k with
  | some item => (.ok item, c)
  | none =>
    match mkProp M gp e k with
    | .ok item => (.ok item, (k, item) :: c)
    | .error err => (.error err, c)

/-- `util.reduce(lambda prev, next: prev[next], raw, cls.root)`. -/
def foldGet (M : Metadata) : Node → List Elem → Except Err Node
  | n, [] => .ok n
  | n, x :: rest =>
    match getItem M n x with
    | .error err => .error err
    | .ok n2 => foldGet M n2 rest

/-- `PathRegistry.coerce(raw)`. -/
def coerce (M : Metadata) (raw : List Elem) : Except Err Node :=
  foldGet M Node.root raw

/-- The elements at even positions, `path[i] for i in range(0, len(path), 2)`. -/
def evens : List Elem → List Elem
  | [] => []
  | [a] => [a]
  | a :: _ :: rest => a :: evens rest

/-- The elements at odd positions, `path[i] for i in range(1, len(path), 2)`. -/
def odds : List Elem → List Elem
  | [] => []
  | [_] => []
  | _ :: b :: rest => b :: odds rest

/-- The `pairs()` generator: `for i in range(0, len(path), 2): yield
path[i], path[i + 1]`.  Returns the pairs actually yielded together with a
flag that is `true` when the final iteration reads `path[i + 1]` past the
end of an odd-length tuple and raises `IndexError`. -/
def pairsGen : List Elem → List (Elem × Elem) × Bool
  | [] => ([], false)
  | [_] => ([], true)
  | a :: b :: rest => ((a, b) :: (pairsGen rest).1, (pairsGen rest).2)

/-- `path_mapper.is_mapper and path_mapper.isa(mapper)` for one element.
Entity descriptors carry both attributes; property descriptors expose
`is_mapper = False` through the inspection interface; tokens (plain
strings) and `None` have neither attribute. -/
def isaCheck (m : Entity) : Elem → Except Err Bool
  | .ent e => .ok (e.is_mapper && e.isa_ids.contains m.id)
  | .prp _ => .ok false
  | _ => .error .attributeError

/-- The early-returning loop of `contains_mapper`. -/
def cmLoop (m : Entity) : List Elem → Except Err Bool
  | [] => .ok false
  | x :: rest =>
    match isaCheck m x with
    | .error err => .error err
    | .ok b => if b then .ok true else cmLoop m rest

/-- `PathRegistry.contains_mapper(mapper)`: scans the even-position
elements and returns `True` on the first inheritance-aware match, `False`
when the loop completes. -/
def contains_mapper (m : Entity) (path : List Elem) : Except Err Bool :=
  cmLoop m (evens path)

/-- The monadic map over `Except` used for the comprehensions in
`serialize` and `deserialize` (a raising element aborts the whole list). -/
def mapExcept (f : Elem → Except Err β) : List Elem → Except Err (List β)
  | [] => .ok []
  | a :: rest =>
    match f a with
    | .error err => .error err
    | .ok b =>
      match mapExcept f rest with
      | .error err => .error err
      | .ok bs => .ok (b :: bs)

/-- `PathRegistry.serialize`: `zip` of the classes of the even-position
elements against the keys of the odd-position elements with a trailing
`None`; `zip` truncates to the shorter list. -/
def serialize (path : List Elem) : Except Err (List (Nat × Option String)) :=
  match mapExcept Elem.classAttr (evens path) with
  | .error err => .error err
  | .ok cs =>
    match mapExcept Elem.keyAttr (odds path) with
    | .error err => .error err
    | .ok ks => .ok (cs.zip (ks.map some ++ [none]))

/-- One pair of the `deserialize` comprehension: resolve the class to its
mapper via `class_mapper` (raising for an unmapped class) and, when the key
is non-null, resolve it via `mapper.attrs[key]` (a `KeyError` when absent);
a null key contributes the `None` placeholder. -/
def resolvePair (M : Metadata) (pr : Nat × Option String) : Except Err (List Elem) :=
  match M.class_mapper pr.1 with
  | none => .error .unresolvable
  | some m =>
    match pr.2 with
    | some key =>
      match M.attrs m.id key with
      | some p => .ok [Elem.ent m, Elem.prp p]
      | none => .error .keyError
    | none => .ok [Elem.ent m, Elem.pynone]

/-- The monadic map for the `deserialize` comprehension over serialized
pairs. -/
def mapResolve (M : Metadata) : List (Nat × Option String) → Except Err (List (List Elem))
  | [] => .ok []
  | a :: rest =>
    match resolvePair M a with
    | .error err => .error err
    | .ok b =>
      match mapResolve M rest with
      | .error err => .error err
      | .ok bs => .ok (b :: bs)

/-- `p[-1]` as an option (the last element of the chained tuple). -/
def lastQ : List Elem → Option Elem
  | [] => none
  | [a] => some a
  | _ :: b :: rest => lastQ (b :: rest)

/-- `p[0:-1]` (all but the last element). -/
def initQ : List Elem → List Elem
  | [] => []
  | [_] => []
  | a :: b :: rest => a :: initQ (b :: rest)

/-- `if p and p[-1] is None: p = p[0:-1]`. -/
def dropTrailingNone (p : List Elem) : List Elem :=
  if p ≠ [] ∧ lastQ p = some Elem.pynone then initQ p else p

/-- `PathRegistry.deserialize(path)`: `None` passes through; otherwise the
pairs are resolved, chained, a trailing `None` placeholder is dropped, and
the result is coerced from the root. -/
def deserialize (M : Metadata) (sp : Option (List (Nat × Option String))) :
    Except Err (Option Node) :=
  match sp with
  | none => .ok none
  | some l =>
    match mapResolve M l with
    | .error err => .error err
    | .ok pieces =>
      match coerce M (dropTrailingNone pieces.flatten) with
      | .error err => .error err
      | .ok n => .ok (some n)

/-- `deserialize(serialize(p))`, with the resulting node rendered back to
its path sequence (structural equality of registries is path equality). -/
def roundTrip (M : Metadata) (p : List Elem) : Except Err (Option (List Elem)) :=
  match serialize p with
  | .error err => .error err
  | .ok s =>
    match deserialize M (some s) with
    | .error err => .error err
    | .ok r => .ok (r.map Node.path)

/-- An alternating entity/property path, optionally terminated by one more
entity element: the well-formed shape described by the data-model
invariants. -/
def mkPath : List (Entity × Prop_) → Option Entity → List Elem
  | [], none => []
  | [], some t => [.ent t]
  | (e, p) :: rest, t => .ent e :: .prp p :: mkPath rest t

/-- The even-position elements contributed by the optional trailing entity. -/
def tailE : Option Entity → List Elem
  | none => []
  | some e => [.ent e]

/-- The serialized pairs contributed by the optional trailing entity. -/
def serTail : Option Entity → List (Nat × Option String)
  | none => []
  | some e => [(e.class_, none)]

/-- Interleave a list of pairs back into a flat element sequence. -/
def interleave : List (Elem × Elem) → List Elem
  | [] => []
  | (a, b) :: rest => a :: b :: interleave rest

/-! Concrete descriptors and metadata used to evaluate the theorems on
closed inputs.  Fields: id, class, is mapper, is aliased class, defer to
mapper path, underlying mapper id, presented polymorphic mapper ids, ids of
the mappers this descriptor satisfies isa for. -/

/-- A plain base mapper (class 10). -/
def mT : Entity := ⟨1, 10, true, false, false, 1, [], [1]⟩

/-- A second plain mapper (class 20). -/
def mI : Entity := ⟨2, 20, true, false, false, 2, [], [2]⟩

/-- A plain mapper for a strict subtype of `mT` (class 30). -/
def mS : Entity := ⟨3, 30, true, false, false, 3, [], [3, 1]⟩

/-- A plain mapper unrelated to the others (class 90). -/
def mO : Entity := ⟨9, 90, true, false, false, 9, [], [9]⟩

/-- An aliased view of `mT` that defers to mapper-path identity and also
presents the polymorphic subtype `mS`: condition 1 applies before the
polymorphic condition. -/
def aDefer : Entity := ⟨5, 10, false, true, true, 1, [3], []⟩

/-- An aliased polymorphic view of `mT` presenting subtype `mS`, not
deferring to mapper-path identity. -/
def aPoly : Entity := ⟨6, 10, false, true, false, 1, [3], []⟩

/-- The `mS`-specific view of `aPoly` (its `_entity_for_mapper(mS)`). -/
def svS : Entity := ⟨7, 30, false, true, false, 3, [], []⟩

/-- A plain aliased view of `mT`: not deferring, not polymorphic. -/
def aPlain : Entity := ⟨8, 10, false, true, false, 1, [], []⟩

/-- A relationship property declared on `mT`. -/
def pOrders : Prop_ := ⟨"orders", mT⟩

/-- A property declared on `mI`. -/
def pItems : Prop_ := ⟨"items", mI⟩

/-- A property declared on the subtype mapper `mS`. -/
def pSub : Prop_ := ⟨"subattr", mS⟩

/-- A property declared on the unrelated mapper `mO`. -/
def pOther : Prop_ := ⟨"other", mO⟩

/-- Concrete metadata: classes 10, 20, 30 resolve to `mT`, `mI`, `mS`;
`mT.attrs` holds `pOrders`; the subtype view of `mS` under `aPoly` is `svS`. -/
def M3 : Metadata :=
  ⟨fun c => if c = 10 then some mT else if c = 20 then some mI else
      if c = 30 then some mS else none,
   fun i k => if i = 1 ∧ k = "orders" then some pOrders else none,
   fun a m => if a = 6 ∧ m = 3 then some svS else none⟩

/-- Degenerate metadata in which no subtype view resolves. -/
def M9 : Metadata := ⟨fun _ => none, fun _ _ => none, fun _ _ => none⟩

/-- The property segment built for `pOrders` under `mT` at the root. -/
def n5 : Node := .prp (.entity .root mT) (.prp pOrders)

/-- Elements on which the attribute accesses of `contains_mapper`
succeed (entities and properties expose the inspection attributes). -/
def isEntityOrProperty : Elem → Bool
  | .ent _ => true
  | .prp _ => true
  | _ => false

/-- The per-element predicate of `contains_mapper`: an entity element that
is a mapper and satisfies isa for the given mapper. -/
def isaHit (m : Entity) : Elem → Bool
  | .ent e => e.is_mapper && e.isa_ids.contains m.id
  | _ => false

/-! Theorems. -/

/-- Indexing any node with an entity key agrees with the dedicated
entity-indexing semantics. -/
theorem getItem_ent (M : Metadata) (n : Node) (x : Entity) :
    getItem M n (Elem.ent x) = getEnt n x := by
  cases n with
  | root => rfl
  | tok a t => rfl
  | prp a b => rfl
  | entity gp e =>
    show mkProp M gp e (Elem.ent x) = getEnt (Node.entity gp e) x
    cases hA : e.is_aliased_class <;> cases hU : e.use_mapper_path <;>
      cases hW : e.with_polymorphic_mappers.isEmpty <;>
      simp [mkProp, getEnt, Elem.attrParent, hA, hU, hW]

/-- Claim C1: when a property segment for `P` is built under a parent
ending in entity segment `E`, and `E` is not an aliased view or is an
aliased view deferring to mapper-path identity (`_use_mapper_path`), the
effective parent is rebased onto `E.parent[P.declaring_entity]`; the
condition carries no polymorphic side condition, so mapper-path deferral
wins even for polymorphic aliases. -/
theorem c1_mapper_path_priority (M : Metadata) (gp : Node) (e : Entity) (P : Prop_)
    (h : e.is_aliased_class = false ∨ e.use_mapper_path = true) :
    getItem M (Node.entity gp e) (Elem.prp P) =
      match getItem M gp (Elem.ent P.parent) with
      | Except.ok par => Except.ok (Node.prp par (Elem.prp P))
      | Except.error err => Except.error err := by
  have hb : (!e.is_aliased_class || e.use_mapper_path) = true := by
    rcases h with h | h <;> simp [h]
  rw [getItem_ent]
  show mkProp M gp e (Elem.prp P) = _
  cases hE : getEnt gp P.parent <;> simp [mkProp, hb, Elem.attrParent, hE]

/-- Witness for C1: a polymorphic alias that defers to mapper-path identity
is still rebased onto the declaring mapper `mS`, not onto its subtype
view. -/
theorem c1_witness :
    (aDefer.is_aliased_class = false ∨ aDefer.use_mapper_path = true) ∧
    getItem M3 (Node.entity Node.root aDefer) (Elem.prp pSub) =
      Except.ok (Node.prp (Node.entity Node.root mS) (Elem.prp pSub)) := by
  refine ⟨Or.inr rfl, ?_⟩
  rw [c1_mapper_path_priority M3 Node.root aDefer pSub (Or.inr rfl)]
  rfl

/-- Claim C2: under an aliased polymorphic entity segment that does not
defer to mapper-path identity, a property declared on a presented strict
subtype rebases the parent onto the subtype view of the alias, and a property
whose declaring mapper is not presented leaves the parent unchanged. -/
theorem c2_polymorphic_subtype (M : Metadata) (gp : Node) (e : Entity) (P : Prop_)
    (ha : e.is_aliased_class = true) (hu : e.use_mapper_path = false)
    (hp : e.with_polymorphic_mappers ≠ []) :
    (∀ sub, M.entity_for_mapper e.id P.parent.id = some sub →
       P.parent.id ≠ e.mapperId → P.parent.id ∈ e.with_polymorphic_mappers →
       getItem M (Node.entity gp e) (Elem.prp P) =
         match getItem M gp (Elem.ent sub) with
         | Except.ok par => Except.ok (Node.prp par (Elem.prp P))
         | Except.error err => Except.error err)
    ∧ (P.parent.id ∉ e.with_polymorphic_mappers →
       getItem M (Node.entity gp e) (Elem.prp P) =
         Except.ok (Node.prp (Node.entity gp e) (Elem.prp P))) := by
  have hW : e.with_polymorphic_mappers.isEmpty = false := by
    cases hL : e.with_polymorphic_mappers with
    | nil => exact absurd hL hp
    | cons a l => rfl
  constructor
  · intro sub hsub hne hmem
    rw [getItem_ent]
    show mkProp M gp e (Elem.prp P) = _
    cases hE : getEnt gp sub <;>
      simp [mkProp, ha, hu, hW, Elem.attrParent, hsub, hne, hmem, hE]
  · intro hnotmem
    show mkProp M gp e (Elem.prp P) = _
    simp [mkProp, ha, hu, hW, Elem.attrParent, hnotmem]

/-- Witness for C2: under `aPoly` the property `pSub` declared on the
presented subtype `mS` rebases onto the subtype view `svS`, while `pOther`,
declared on a mapper that is not presented, leaves the parent unchanged. -/
theorem c2_witness :
    getItem M3 (Node.entity Node.root aPoly) (Elem.prp pSub) =
      Except.ok (Node.prp (Node.entity Node.root svS) (Elem.prp pSub)) ∧
    getItem M3 (Node.entity Node.root aPoly) (Elem.prp pOther) =
      Except.ok (Node.prp (Node.entity Node.root aPoly) (Elem.prp pOther)) := by
  constructor
  · rw [(c2_polymorphic_subtype M3 Node.root aPoly pSub rfl rfl (by decide)).1
      svS rfl (by decide) (by decide)]
    rfl
  · exact (c2_polymorphic_subtype M3 Node.root aPoly pOther rfl rfl
      (by decide)).2 (by decide)

/-- Claim C8: indexing a token segment with any entity key fails
(`TokenRegistry.__getitem__` raises unconditionally; this is the
realisation of the `InvalidIndexError` of the specification). -/
theorem c8_token_index_error (M : Metadata) (par : Node) (t : String) (e : Entity) :
    getItem M (Node.tok par t) (Elem.ent e) = Except.error Err.notImplemented := rfl

/-- Claim C10: deserializing the `None` portable form returns `None`
rather than a path node or an error. -/
theorem c10_deserialize_none (M : Metadata) :
    deserialize M none = Except.ok none := rfl

/-- Counterexample to claim C4: on the odd-length path
`[e0, p0, e1, p1, e2]` the `pairs()` generator yields the two complete
pairs but then reads `path[5]` past the end of the tuple and raises
`IndexError` (the error flag), instead of silently omitting the trailing
unpaired element. -/
theorem c4_counterexample :
    pairsGen [Elem.ent mT, Elem.prp pOrders, Elem.ent mI, Elem.prp pItems, Elem.ent mO] =
      ([(Elem.ent mT, Elem.prp pOrders), (Elem.ent mI, Elem.prp pItems)], true) := rfl

/-- Claim C4 as amended: `pairs()` walks the sequence two elements at a
time; on an even-length path it yields exactly the (entity, property)
pairs and terminates normally, while on an odd-length path it yields all
complete pairs and then fails with an index error when reading past the
final unpaired element. -/
theorem c4_pairs_amended (eps : List (Elem × Elem)) (t : Elem) :
    pairsGen (interleave eps) = (eps, false) ∧
    pairsGen (interleave eps ++ [t]) = (eps, true) := by
  induction eps with
  | nil => exact ⟨rfl, rfl⟩
  | cons ab rest ih =>
    obtain ⟨a, b⟩ := ab
    constructor <;> simp [interleave, pairsGen, ih.1, ih.2]

/-- Claim C5: for a fixed entity segment and key, a cache miss constructs
the property segment and stores it under the key, and the subsequent
lookup returns the cached child with the cache unchanged, so two
successive lookups return the same (hence structurally equal) node. -/
theorem c5_memoization (M : Metadata) (gp : Node) (e : Entity) (c : Cache)
    (k : Elem) (n : Node)
    (hmiss : cacheFind c k = none) (hmk : mkProp M gp e k = Except.ok n) :
    dictGetItem M gp e c k = (Except.ok n, (k, n) :: c) ∧
    dictGetItem M gp e ((k, n) :: c) k = (Except.ok n, (k, n) :: c) := by
  constructor
  · simp [dictGetItem, hmiss, hmk]
  · simp [dictGetItem, cacheFind]

/-- Witness for C5: the first lookup of `pOrders` under the root `mT`
segment constructs and caches `n5`; the second returns the cached `n5`
unchanged. -/
theorem c5_witness :
    dictGetItem M3 Node.root mT [] (Elem.prp pOrders) =
      (Except.ok n5, [(Elem.prp pOrders, n5)]) ∧
    dictGetItem M3 Node.root mT [(Elem.prp pOrders, n5)] (Elem.prp pOrders) =
      (Except.ok n5, [(Elem.prp pOrders, n5)]) :=
  c5_memoization M3 Node.root mT [] (Elem.prp pOrders) n5 rfl rfl

/-- Claim C9: when constructing the property segment for a key fails, the
shared child cache is left unchanged and no entry for the key is
published - the node is fully computed before it is stored. -/
theorem c9_failed_construction (M : Metadata) (gp : Node) (e : Entity) (c : Cache)
    (k : Elem) (err : Err)
    (hmiss : cacheFind c k = none) (hmk : mkProp M gp e k = Except.error err) :
    dictGetItem M gp e c k = (Except.error err, c) := by
  simp [dictGetItem, hmiss, hmk]

/-- Witness for C9: under metadata in which the subtype view of `mS` does
not resolve, constructing the segment for `pSub` under the polymorphic
alias `aPoly` fails and the empty cache stays empty. -/
theorem c9_witness :
    mkProp M9 Node.root aPoly (Elem.prp pSub) = Except.error Err.entityForMapperError ∧
    dictGetItem M9 Node.root aPoly [] (Elem.prp pSub) =
      (Except.error Err.entityForMapperError, []) :=
  ⟨rfl, c9_failed_construction M9 Node.root aPoly [] (Elem.prp pSub)
    Err.entityForMapperError rfl rfl⟩

/-- The early-returning loop of `contains_mapper` computes `List.any` of
the per-element predicate when every element supports the attribute
accesses. -/
theorem cmLoop_ok (m : Entity) : ∀ (l : List Elem),
    (∀ x ∈ l, isEntityOrProperty x = true) →
    cmLoop m l = Except.ok (l.any (isaHit m)) := by
  intro l
  induction l with
  | nil => intro h; rfl
  | cons x rest ih =>
    intro h
    have hx := h x (List.mem_cons_self x rest)
    have hr := ih (fun y hy => h y (List.mem_cons_of_mem x hy))
    cases x with
    | ent e =>
      cases hm : e.is_mapper && decide (m.id ∈ e.isa_ids) <;>
        simp [cmLoop, isaCheck, isaHit, hm, hr]
    | prp p => simp [cmLoop, isaCheck, isaHit, hr]
    | tok t => exact absurd hx (by simp [isEntityOrProperty])
    | pynone => exact absurd hx (by simp [isEntityOrProperty])

/-- Claim C7: on a path whose even-position elements all support the
inspection attributes, `contains_mapper` returns without error, returns
`True` exactly when some even-position entity element is a mapper that
satisfies isa for the given mapper (so on `[e0, p0, e1]` exactly when `e0` or `e1`
matches), and returns `False` on the empty root path. -/
theorem c7_contains_mapper_iff (m : Entity) (path : List Elem)
    (h : ∀ x ∈ evens path, isEntityOrProperty x = true) :
    (contains_mapper m path = Except.ok true ∨
       contains_mapper m path = Except.ok false)
    ∧ (contains_mapper m path = Except.ok true ↔
        ∃ e, Elem.ent e ∈ evens path ∧
          (e.is_mapper && e.isa_ids.contains m.id) = true)
    ∧ contains_mapper m [] = Except.ok false := by
  have hmain : contains_mapper m path = Except.ok ((evens path).any (isaHit m)) :=
    cmLoop_ok m (evens path) h
  refine ⟨?_, ?_, rfl⟩
  · rw [hmain]
    cases (evens path).any (isaHit m)
    · exact Or.inr rfl
    · exact Or.inl rfl
  · rw [hmain]
    constructor
    · intro hq
      have hany : (evens path).any (isaHit m) = true := by
        injection hq
      rcases List.any_eq_true.mp hany with ⟨x, hxmem, hpx⟩
      cases x with
      | ent e => exact ⟨e, hxmem, hpx⟩
      | prp p => exact absurd hpx (by simp [isaHit])
      | tok t => exact absurd hpx (by simp [isaHit])
      | pynone => exact absurd hpx (by simp [isaHit])
    · rintro ⟨e, he, hpred⟩
      have hany : (evens path).any (isaHit m) = true :=
        List.any_eq_true.mpr ⟨Elem.ent e, he, hpred⟩
      rw [hany]

/-- Witness for C7: on the path `[mS, orders, mO]` the subtype mapper `mS`
satisfies isa for `mT`, so containment of `mT` holds. -/
theorem c7_witness :
    (∀ x ∈ evens [Elem.ent mS, Elem.prp pOrders, Elem.ent mO],
        isEntityOrProperty x = true) ∧
    contains_mapper mT [Elem.ent mS, Elem.prp pOrders, Elem.ent mO] =
      Except.ok true := by
  refine ⟨by decide, ?_⟩
  exact (c7_contains_mapper_iff mT
    [Elem.ent mS, Elem.prp pOrders, Elem.ent mO] (by decide)).2.1.mpr
    ⟨mS, by decide, by decide⟩

/-- Even positions of a well-formed path: the entities of the pairs,
then the optional trailing entity. -/
theorem evens_mkPath (eps : List (Entity × Prop_)) (t : Option Entity) :
    evens (mkPath eps t) = (eps.map fun ep => Elem.ent ep.1) ++ tailE t := by
  induction eps with
  | nil => cases t <;> rfl
  | cons ep rest ih =>
    obtain ⟨e, p⟩ := ep
    simp [mkPath, evens, ih]

/-- Odd positions of a well-formed path: the properties of the pairs. -/
theorem odds_mkPath (eps : List (Entity × Prop_)) (t : Option Entity) :
    odds (mkPath eps t) = eps.map fun ep => Elem.prp ep.2 := by
  induction eps with
  | nil => cases t <;> rfl
  | cons ep rest ih =>
    obtain ⟨e, p⟩ := ep
    simp [mkPath, odds, ih]

/-- Class access over entity elements never fails. -/
theorem mapExcept_class_ents (eps : List (Entity × Prop_)) :
    mapExcept Elem.classAttr (eps.map fun ep => Elem.ent ep.1) =
      Except.ok (eps.map fun ep => ep.1.class_) := by
  induction eps with
  | nil => rfl
  | cons ep rest ih => simp [mapExcept, Elem.classAttr, ih]

/-- Class access over entity elements with a trailing entity. -/
theorem mapExcept_class_ents_tail (eps : List (Entity × Prop_)) (t : Entity) :
    mapExcept Elem.classAttr ((eps.map fun ep => Elem.ent ep.1) ++ [Elem.ent t]) =
      Except.ok ((eps.map fun ep => ep.1.class_) ++ [t.class_]) := by
  induction eps with
  | nil => rfl
  | cons ep rest ih => simp [mapExcept, Elem.classAttr, ih]

/-- Key access over property elements never fails. -/
theorem mapExcept_key_prps (eps : List (Entity × Prop_)) :
    mapExcept Elem.keyAttr (eps.map fun ep => Elem.prp ep.2) =
      Except.ok (eps.map fun ep => ep.2.key) := by
  induction eps with
  | nil => rfl
  | cons ep rest ih => simp [mapExcept, Elem.keyAttr, ih]

/-- The `zip` of `serialize` on an even-length path: the trailing `None`
is truncated away. -/
theorem zip_ser_none (eps : List (Entity × Prop_)) :
    (eps.map fun ep => ep.1.class_).zip
        (((eps.map fun ep => ep.2.key).map some) ++ [none]) =
      eps.map fun ep => (ep.1.class_, some ep.2.key) := by
  induction eps with
  | nil => rfl
  | cons ep rest ih =>
    simp only [List.map_cons, List.cons_append, List.zip_cons_cons, ih]

/-- The `zip` of `serialize` on an entity-terminated path: the final
entity pairs with the trailing `None`. -/
theorem zip_ser_some (eps : List (Entity × Prop_)) (t : Entity) :
    ((eps.map fun ep => ep.1.class_) ++ [t.class_]).zip
        (((eps.map fun ep => ep.2.key).map some) ++ [none]) =
      (eps.map fun ep => (ep.1.class_, some ep.2.key)) ++ [(t.class_, none)] := by
  induction eps with
  | nil => rfl
  | cons ep rest ih =>
    simp only [List.map_cons, List.cons_append, List.zip_cons_cons, ih]

/-- `serialize` on a well-formed path emits the (class, key) pairs and a
final (class, null) entry exactly when the path ends in an entity. -/
theorem serialize_mkPath (eps : List (Entity × Prop_)) (t : Option Entity) :
    serialize (mkPath eps t) =
      Except.ok ((eps.map fun ep => (ep.1.class_, some ep.2.key)) ++ serTail t) := by
  cases t with
  | none =>
    simp only [serialize, evens_mkPath, odds_mkPath, tailE, List.append_nil,
      mapExcept_class_ents, mapExcept_key_prps, serTail]
    rw [zip_ser_none]
  | some e =>
    simp only [serialize, evens_mkPath, odds_mkPath, tailE,
      mapExcept_class_ents_tail, mapExcept_key_prps, serTail]
    rw [zip_ser_some]

/-- Claim C6: `serialize` walks the element sequence two at a time,
emitting for each (entity, property) pair the pair of the entity class
and the property key, and for a final entity element with no following
property the pair of its class and null; the result is an ordered list of
such identifier pairs. -/
theorem c6_serialize_shape (eps : List (Entity × Prop_)) (t : Entity) :
    serialize (mkPath eps none) =
      Except.ok (eps.map fun ep => (ep.1.class_, some ep.2.key)) ∧
    serialize (mkPath eps (some t)) =
      Except.ok ((eps.map fun ep => (ep.1.class_, some ep.2.key)) ++
        [(t.class_, none)]) := by
  constructor
  · rw [serialize_mkPath eps none]
    simp [serTail]
  · rw [serialize_mkPath eps (some t)]
    rfl

/-- Resolution of the serialized pairs of an even-length canonical path. -/
theorem mapResolve_pairs (M : Metadata) (eps : List (Entity × Prop_))
    (h : ∀ ep ∈ eps, M.class_mapper ep.1.class_ = some ep.1 ∧
          M.attrs ep.1.id ep.2.key = some ep.2) :
    mapResolve M (eps.map fun ep => (ep.1.class_, some ep.2.key)) =
      Except.ok (eps.map fun ep => [Elem.ent ep.1, Elem.prp ep.2]) := by
  induction eps with
  | nil => rfl
  | cons ep rest ih =>
    have hep := h ep (List.mem_cons_self ep rest)
    have hr := ih (fun y hy => h y (List.mem_cons_of_mem ep hy))
    simp [mapResolve, resolvePair, hep.1, hep.2, hr]

/-- Resolution of the serialized pairs of an entity-terminated canonical
path: the final pair resolves to the entity and the `None` placeholder. -/
theorem mapResolve_pairs_tail (M : Metadata) (eps : List (Entity × Prop_)) (t : Entity)
    (h : ∀ ep ∈ eps, M.class_mapper ep.1.class_ = some ep.1 ∧
          M.attrs ep.1.id ep.2.key = some ep.2)
    (ht : M.class_mapper t.class_ = some t) :
    mapResolve M ((eps.map fun ep => (ep.1.class_, some ep.2.key)) ++ [(t.class_, none)]) =
      Except.ok ((eps.map fun ep => [Elem.ent ep.1, Elem.prp ep.2]) ++
        [[Elem.ent t, Elem.pynone]]) := by
  induction eps with
  | nil => simp [mapResolve, resolvePair, ht]
  | cons ep rest ih =>
    have hep := h ep (List.mem_cons_self ep rest)
    have hr := ih (fun y hy => h y (List.mem_cons_of_mem ep hy))
    simp [mapResolve, resolvePair, hep.1, hep.2, hr]

/-- Chaining the resolved pieces of an even-length canonical path. -/
theorem flatten_pieces (eps : List (Entity × Prop_)) :
    (eps.map fun ep => [Elem.ent ep.1, Elem.prp ep.2]).flatten = mkPath eps none := by
  induction eps with
  | nil => rfl
  | cons ep rest ih =>
    obtain ⟨e, p⟩ := ep
    simp [mkPath, ih]

/-- An entity-terminated canonical path is the even-length part plus the
final entity element. -/
theorem mkPath_some (eps : List (Entity × Prop_)) (t : Entity) :
    mkPath eps (some t) = mkPath eps none ++ [Elem.ent t] := by
  induction eps with
  | nil => rfl
  | cons ep rest ih =>
    obtain ⟨e, p⟩ := ep
    simp [mkPath, ih]

/-- Canonical paths contain no `None` placeholder. -/
theorem pynone_not_mem (eps : List (Entity × Prop_)) (t : Option Entity) :
    Elem.pynone ∉ mkPath eps t := by
  induction eps with
  | nil =>
    cases t with
    | none => simp [mkPath]
    | some e => simp [mkPath]
  | cons ep rest ih =>
    obtain ⟨e, p⟩ := ep
    simp only [mkPath, List.mem_cons]
    rintro (h | h | h)
    · exact Elem.noConfusion h
    · exact Elem.noConfusion h
    · exact ih h

/-- `p[-1]` of a non-empty concatenation. -/
theorem lastQ_concat : ∀ (l : List Elem) (a : Elem), lastQ (l ++ [a]) = some a
  | [], _ => rfl
  | [_], _ => rfl
  | _ :: y :: rest, a => lastQ_concat (y :: rest) a

/-- `p[0:-1]` of a non-empty concatenation. -/
theorem initQ_concat : ∀ (l : List Elem) (a : Elem), initQ (l ++ [a]) = l
  | [], _ => rfl
  | [_], _ => rfl
  | x :: y :: rest, a => congrArg (x :: ·) (initQ_concat (y :: rest) a)

/-- The last element of a list is a member of it. -/
theorem mem_of_lastQ : ∀ (l : List Elem) (a : Elem), lastQ l = some a → a ∈ l
  | [], _, h => nomatch h
  | [x], a, h => by
    injection h with h
    exact h ▸ List.mem_singleton_self x
  | _ :: y :: rest, a, h =>
    List.mem_cons_of_mem _ (mem_of_lastQ (y :: rest) a h)

/-- Replaying the index steps of a canonical path from the root (or from
any property segment) succeeds and appends exactly the elements of the path:
each entity step wraps the accumulator and each property step, whose
declaring mapper is the immediately preceding non-aliased entity, restates
the parent back onto that same entity segment. -/
theorem foldGet_canonical (M : Metadata) :
    ∀ (eps : List (Entity × Prop_)) (t : Option Entity) (n : Node),
      (n = Node.root ∨ ∃ a b, n = Node.prp a b) →
      (∀ ep ∈ eps, ep.1.is_aliased_class = false ∧ ep.2.parent = ep.1) →
      ∃ m, foldGet M n (mkPath eps t) = Except.ok m ∧
        m.path = n.path ++ mkPath eps t := by
  intro eps
  induction eps with
  | nil =>
    intro t n hn _h
    cases t with
    | none => exact ⟨n, rfl, by simp [mkPath]⟩
    | some e =>
      have hget : getItem M n (Elem.ent e) = Except.ok (Node.entity n e) := by
        rcases hn with rfl | ⟨a, b, rfl⟩ <;> rfl
      refine ⟨Node.entity n e, ?_, by simp [mkPath, Node.path]⟩
      simp [mkPath, foldGet, hget]
  | cons ep rest ih =>
    intro t n hn h
    obtain ⟨e, p⟩ := ep
    have he : e.is_aliased_class = false := (h (e, p) (List.mem_cons_self _ _)).1
    have hp : p.parent = e := (h (e, p) (List.mem_cons_self _ _)).2
    have hrest := fun y hy => h y (List.mem_cons_of_mem _ hy)
    have hget1 : getItem M n (Elem.ent e) = Except.ok (Node.entity n e) := by
      rcases hn with rfl | ⟨a, b, rfl⟩ <;> rfl
    have hgetE : getEnt n e = Except.ok (Node.entity n e) := by
      rcases hn with rfl | ⟨a, b, rfl⟩ <;> rfl
    have hget2 : getItem M (Node.entity n e) (Elem.prp p) =
        Except.ok (Node.prp (Node.entity n e) (Elem.prp p)) := by
      show mkProp M n e (Elem.prp p) = _
      simp [mkProp, he, Elem.attrParent, hp, hgetE]
    obtain ⟨m, hm, hmp⟩ := ih t (Node.prp (Node.entity n e) (Elem.prp p))
      (Or.inr ⟨_, _, rfl⟩) hrest
    refine ⟨m, ?_, ?_⟩
    · simp [mkPath, foldGet, hget1, hget2, hm]
    · rw [hmp]
      simp [Node.path, mkPath]

/-- Deserializing the portable form of a canonical path rebuilds a node
with exactly the original element sequence. -/
theorem deserialize_canonical (M : Metadata) (eps : List (Entity × Prop_)) (t : Option Entity)
    (h : ∀ ep ∈ eps, ep.1.is_aliased_class = false ∧ ep.2.parent = ep.1 ∧
          M.class_mapper ep.1.class_ = some ep.1 ∧ M.attrs ep.1.id ep.2.key = some ep.2)
    (ht : ∀ e ∈ t.toList, M.class_mapper e.class_ = some e) :
    ∃ m, deserialize M (some ((eps.map fun ep => (ep.1.class_, some ep.2.key)) ++ serTail t)) =
      Except.ok (some m) ∧ m.path = mkPath eps t := by
  have hres2 : ∀ ep ∈ eps, M.class_mapper ep.1.class_ = some ep.1 ∧
      M.attrs ep.1.id ep.2.key = some ep.2 :=
    fun ep hep => ⟨(h ep hep).2.2.1, (h ep hep).2.2.2⟩
  have hcanon : ∀ ep ∈ eps, ep.1.is_aliased_class = false ∧ ep.2.parent = ep.1 :=
    fun ep hep => ⟨(h ep hep).1, (h ep hep).2.1⟩
  cases t with
  | none =>
    have hres := mapResolve_pairs M eps hres2
    have hdrop : dropTrailingNone (mkPath eps none) = mkPath eps none := by
      rw [dropTrailingNone, if_neg]
      rintro ⟨hne, hl⟩
      exact pynone_not_mem eps none (mem_of_lastQ _ _ hl)
    obtain ⟨m, hm, hmp⟩ := foldGet_canonical M eps none Node.root (Or.inl rfl) hcanon
    refine ⟨m, ?_, by simpa using hmp⟩
    simp only [deserialize, serTail, List.append_nil, hres, flatten_pieces, hdrop,
      coerce, hm]
  | some e =>
    have hte : M.class_mapper e.class_ = some e := ht e (by simp)
    have hres := mapResolve_pairs_tail M eps e hres2 hte
    have hflat : ((eps.map fun ep => [Elem.ent ep.1, Elem.prp ep.2]) ++
        [[Elem.ent e, Elem.pynone]]).flatten =
        (mkPath eps none ++ [Elem.ent e]) ++ [Elem.pynone] := by
      rw [List.flatten_append, flatten_pieces]
      simp
    have hdrop : dropTrailingNone ((mkPath eps none ++ [Elem.ent e]) ++ [Elem.pynone]) =
        mkPath eps (some e) := by
      rw [dropTrailingNone, if_pos]
      · rw [initQ_concat, mkPath_some]
      · exact ⟨by simp, lastQ_concat _ _⟩
    obtain ⟨m, hm, hmp⟩ := foldGet_canonical M eps (some e) Node.root (Or.inl rfl) hcanon
    refine ⟨m, ?_, by simpa using hmp⟩
    simp only [deserialize, serTail, hres, hflat, hdrop, coerce, hm]

/-- Claim C3 as amended: the round-trip law
`deserialize(serialize(p)) == p` (structural path equality) holds for
canonical paths: alternating entity/property sequences, optionally
entity-terminated, in which every entity element is a plain non-aliased
mapper, every property is declared on the immediately preceding entity
(the invariant that registry construction itself establishes), and the
metadata resolves each serialized class back to the same mapper and each
key back to the same property.  It does not hold for constructible paths
whose entity elements are aliased views (see the counterexample). -/
theorem c3_roundtrip_canonical (M : Metadata) (eps : List (Entity × Prop_)) (t : Option Entity)
    (h : ∀ ep ∈ eps, ep.1.is_aliased_class = false ∧ ep.2.parent = ep.1 ∧
          M.class_mapper ep.1.class_ = some ep.1 ∧ M.attrs ep.1.id ep.2.key = some ep.2)
    (ht : ∀ e ∈ t.toList, M.class_mapper e.class_ = some e) :
    roundTrip M (mkPath eps t) = Except.ok (some (mkPath eps t)) := by
  obtain ⟨m, hdes, hpath⟩ := deserialize_canonical M eps t h ht
  simp only [roundTrip, serialize_mkPath, hdes]
  simp [hpath]

/-- Witness for the amended C3: the two-hop path `mT -orders-> mI`
round-trips exactly. -/
theorem c3_witness :
    (∀ ep ∈ [(mT, pOrders)], ep.1.is_aliased_class = false ∧ ep.2.parent = ep.1 ∧
        M3.class_mapper ep.1.class_ = some ep.1 ∧
        M3.attrs ep.1.id ep.2.key = some ep.2) ∧
    roundTrip M3 (mkPath [(mT, pOrders)] (some mI)) =
      Except.ok (some (mkPath [(mT, pOrders)] (some mI))) := by
  refine ⟨by decide, ?_⟩
  exact c3_roundtrip_canonical M3 [(mT, pOrders)] (some mI) (by decide) (by decide)

/-- Counterexample to claim C3 as stated: the path `Root[aPlain]` through
a plain aliased view of `mT` is constructible and its serialized class
still resolves, yet the round trip lands on the underlying mapper `mT`
and the rebuilt path differs from the original. -/
theorem c3_counterexample :
    M3.class_mapper aPlain.class_ = some mT ∧
    roundTrip M3 [Elem.ent aPlain] = Except.ok (some [Elem.ent mT]) ∧
    ([Elem.ent mT] : List Elem) ≠ [Elem.ent aPlain] := by
  exact ⟨rfl, rfl, by decide⟩

end PathReg
